import Mathlib

/-!
Verification of the resilient request execution subsystem and the
term-clustering engine of the repository: shallow embeddings, in Lean, of
`src/literature/error_handler.py`, `src/literature/quota_manager.py` and
`src/ontology/term_clusterer.py`, together with theorems settling the
behavioural claims made about them.

Modelling conventions: Python floats are modelled as exact rationals
(or reals where the code computes logarithms and square roots); wall-clock
readings (`time.time()`, `datetime.now()`) are explicit parameters;
exceptions are an inductive datatype mirroring the `requests` exception
hierarchy; functions that mutate `self` are state-passing functions.
-/

namespace ErrorHandler

/-- Severity levels of `ErrorSeverity` in `error_handler.py`. -/
inductive Severity where
  | low
  | medium
  | high
  | critical
deriving DecidableEq, Repr

/-- The three circuit breaker states of `CircuitBreakerState`. -/
inductive CBState where
  | closed
  | opened
  | halfOpen
deriving DecidableEq, Repr

/-- Exception values that flow through the error handler.  The
`requests` class hierarchy is reflected by the isinstance predicates
below: in `requests.exceptions`, `SSLError` and `ProxyError` are
subclasses of `ConnectionError`, and all the requests classes are
subclasses of `RequestException`.  `httpError` carries the
`response.status_code` of the attached response (`none` models a `None`
response attribute).  `nonRetryableCircuitOpen` is the repository's own
`NonRetryableError` raised by the breaker; `otherExc` is any exception
outside the taxonomy (e.g. `ValueError`); `raisedNone` models the
`raise last_exception` line executing while `last_exception is None`. -/
inductive PyExc where
  | connectionError
  | timeoutExc
  | sslError
  | proxyError
  | chunkedEncodingError
  | httpError (status : Option ℕ)
  | requestException
  | nonRetryableCircuitOpen
  | otherExc
  | raisedNone
deriving DecidableEq, Repr

/-- `isinstance(e, requests.exceptions.ConnectionError)`: true for
`ConnectionError` itself and its subclasses `SSLError`, `ProxyError`. -/
def is_connection_error : PyExc → Bool
  | .connectionError => true
  | .sslError => true
  | .proxyError => true
  | _ => false

/-- `isinstance(e, requests.exceptions.Timeout)`. -/
def is_timeout : PyExc → Bool
  | .timeoutExc => true
  | _ => false

/-- `isinstance(e, requests.exceptions.SSLError)`. -/
def is_ssl_error : PyExc → Bool
  | .sslError => true
  | _ => false

/-- `isinstance(e, requests.exceptions.ProxyError)`. -/
def is_proxy_error : PyExc → Bool
  | .proxyError => true
  | _ => false

/-- `isinstance(e, requests.exceptions.ChunkedEncodingError)`. -/
def is_chunked_encoding_error : PyExc → Bool
  | .chunkedEncodingError => true
  | _ => false

/-- `isinstance(e, requests.exceptions.HTTPError)`. -/
def is_http_error : PyExc → Bool
  | .httpError _ => true
  | _ => false

/-- `isinstance(e, requests.exceptions.RequestException)`: true for every
class of the requests taxonomy. -/
def is_request_exception : PyExc → Bool
  | .connectionError => true
  | .timeoutExc => true
  | .sslError => true
  | .proxyError => true
  | .chunkedEncodingError => true
  | .httpError _ => true
  | .requestException => true
  | _ => false

/-- `ErrorClassifier.RETRYABLE_STATUS_CODES`. -/
def RETRYABLE_STATUS_CODES : List ℕ := [408, 429, 500, 502, 503, 504]

/-- `ErrorClassifier.NON_RETRYABLE_STATUS_CODES`. -/
def NON_RETRYABLE_STATUS_CODES : List ℕ := [400, 401, 403, 404, 405, 406, 409, 410, 422]

/-- Shallow embedding of `ErrorClassifier.classify_exception`.  The
branches follow the source's isinstance checks in their order.  The test
`hasattr(exception, 'response') and exception.response` is truthy iff a
response object is attached and its `status_code` is below 400, because
`requests.Response.__bool__` is defined as `self.ok`, i.e.
`status_code < 400`. -/
def classify_exception (e : PyExc) : Bool × Severity :=
  if is_connection_error e || is_timeout e then (true, .medium)
  else if is_ssl_error e then (false, .high)
  else if is_proxy_error e then (true, .medium)
  else if is_chunked_encoding_error e then (true, .low)
  else if is_http_error e then
    match e with
    | .httpError (some st) =>
      if st < 400 then
        if st ∈ RETRYABLE_STATUS_CODES then
          (true, if 500 ≤ st then Severity.high else Severity.medium)
        else if st ∈ NON_RETRYABLE_STATUS_CODES then
          (false, if st = 401 then Severity.critical else Severity.high)
        else (false, .high)
      else (false, .high)
    | _ => (false, .high)
  else if is_request_exception e then (true, .medium)
  else (false, .critical)

/-- Shallow embedding of `ErrorClassifier.should_retry`.  In Python,
`attempt >= max_attempts - 1`; with `max_attempts = 0` that comparison is
against `-1` and is always true, which truncated subtraction on `ℕ`
reproduces (`0 - 1 = 0 ≤ attempt`). -/
def should_retry (e : PyExc) (attempt max_attempts : ℕ) : Bool :=
  if max_attempts - 1 ≤ attempt then false
  else
    let c := classify_exception e
    if c.2 = .critical then false else c.1

/-- State of one `CircuitBreaker` object. -/
structure CB where
  failure_threshold : ℕ
  recovery_timeout : ℚ
  failure_count : ℕ
  last_failure_time : Option ℚ
  state : CBState
deriving DecidableEq, Repr

/-- A freshly constructed `CircuitBreaker(failure_threshold=T, recovery_timeout=R)`. -/
def CB.fresh (T : ℕ) (R : ℚ) : CB :=
  { failure_threshold := T
    recovery_timeout := R
    failure_count := 0
    last_failure_time := none
    state := .closed }

/-- `CircuitBreaker._should_attempt_reset`.  Note the Python truthiness
test on `self.last_failure_time`, which is falsy both when `None` and
when exactly `0.0`. -/
def should_attempt_reset (cb : CB) (now : ℚ) : Bool :=
  decide (cb.state = .opened) &&
    (match cb.last_failure_time with
     | none => false
     | some t => decide (t ≠ 0) && decide (cb.recovery_timeout ≤ now - t))

/-- `CircuitBreaker._record_failure`: increment the count, stamp the
failure time, and open the circuit once the threshold is reached. -/
def record_failure (cb : CB) (now : ℚ) : CB :=
  { cb with
    failure_count := cb.failure_count + 1
    last_failure_time := some now
    state := if cb.failure_threshold ≤ cb.failure_count + 1 then .opened else cb.state }

/-- Outcome of one invocation of the wrapped operation: it either returns
a value or raises an exception. -/
inductive Outcome where
  | ok (v : ℤ)
  | raise (e : PyExc)
deriving DecidableEq, Repr

/-- Admission phase of `CircuitBreaker.call` (everything before `func`
runs): either reject with the circuit-open `NonRetryableError`
(`Sum.inl`, breaker state unchanged) or admission (`Sum.inr`), transitioning
OPEN to HALF_OPEN when `_should_attempt_reset()` holds. -/
def admission (cb : CB) (now : ℚ) : CB ⊕ CB :=
  if cb.state = .opened then
    if should_attempt_reset cb now then .inr { cb with state := .halfOpen }
    else .inl cb
  else .inr cb

deriving instance DecidableEq for Except

/-- What one circuit-breaker-protected attempt produces: whether the
operation was actually invoked, the value returned or exception raised,
and the breaker state afterwards. -/
structure CallResult where
  invoked : Bool
  result : Except PyExc ℤ
  cb : CB
deriving DecidableEq, Repr

/-- Invocation phase of `CircuitBreaker.call`, shared verbatim by the
async variant's manual handling: on success, a HALF_OPEN breaker closes
and resets its count; on an exception (the default
`expected_exception=Exception` catches every exception modelled here)
`_record_failure` runs and the exception propagates. -/
def invoke_phase (cb : CB) (now : ℚ) (out : Outcome) : CallResult :=
  match out with
  | .ok v =>
    if cb.state = .halfOpen then
      ⟨true, .ok v, { cb with state := .closed, failure_count := 0 }⟩
    else ⟨true, .ok v, cb⟩
  | .raise e => ⟨true, .error e, record_failure cb now⟩

/-- One attempt of `execute_with_retry`, i.e. `CircuitBreaker.call`:
rejection leaves the breaker untouched. -/
def cb_call (cb : CB) (now : ℚ) (out : Outcome) : CallResult :=
  match admission cb now with
  | .inl cbR => ⟨false, .error .nonRetryableCircuitOpen, cbR⟩
  | .inr cb1 => invoke_phase cb1 now out

/-- One attempt of `async_execute_with_retry`'s manually managed breaker
logic.  Identical to `cb_call` except on rejection: the circuit-open
`NonRetryableError` is raised inside the `try` block and caught by the
surrounding `except Exception`, whose first action is
`circuit_breaker._record_failure()` — so the rejected call mutates the
breaker. -/
def async_call (cb : CB) (now : ℚ) (out : Outcome) : CallResult :=
  match admission cb now with
  | .inl cbR => ⟨false, .error .nonRetryableCircuitOpen, record_failure cbR now⟩
  | .inr cb1 => invoke_phase cb1 now out

/-- Result of a whole `execute_with_retry` call: the returned value or
propagated exception, how many times the operation was invoked, how many
backoff sleeps happened, and the breaker state at the end. -/
structure ExecResult where
  result : Except PyExc ℤ
  invocations : ℕ
  sleeps : ℕ
  cb : CB
deriving DecidableEq, Repr

/-- The retry loop shared by `execute_with_retry` and
`async_execute_with_retry`, parametrised by the per-attempt step
(`cb_call` for the sync variant, `async_call` for the async one); the two
Python bodies are otherwise line-for-line the same control flow.  `ops i`
is the outcome of the operation's `i`-th invocation (the operation is
only consumed when the breaker admits the call) and `times a` is the
wall-clock reading during attempt `a`.  `lastE` tracks `last_exception`.
The `for attempt in range(max_attempts)` loop is driven by the remaining
iteration count `fuel = maxA - attempt`; the `fuel = 0` base case is the
`raise last_exception` line after the loop. -/
def exec_go (step : CB → ℚ → Outcome → CallResult) (maxA : ℕ)
    (ops : ℕ → Outcome) (times : ℕ → ℚ) :
    ℕ → ℕ → ℕ → ℕ → CB → Option PyExc → ExecResult
  | 0, _, inv, slp, cb, lastE => ⟨.error (lastE.getD .raisedNone), inv, slp, cb⟩
  | fuel + 1, attempt, inv, slp, cb, lastE =>
    let c := step cb (times attempt) (ops inv)
    let inv1 := inv + (if c.invoked then 1 else 0)
    match c.result with
    | .ok v => ⟨.ok v, inv1, slp, c.cb⟩
    | .error e =>
      if should_retry e attempt maxA then
        exec_go step maxA ops times fuel (attempt + 1) inv1
          (slp + (if attempt < maxA - 1 then 1 else 0)) c.cb (some e)
      else ⟨.error e, inv1, slp, c.cb⟩

/-- `RobustErrorHandler.execute_with_retry` for one service, whose breaker
is `cb` (the handler keeps one lazily created breaker per service name). -/
def execute_with_retry (maxA : ℕ) (cb : CB) (ops : ℕ → Outcome) (times : ℕ → ℚ) :
    ExecResult :=
  exec_go cb_call maxA ops times maxA 0 0 0 cb none

/-- `RobustErrorHandler.async_execute_with_retry` for one service. -/
def async_execute_with_retry (maxA : ℕ) (cb : CB) (ops : ℕ → Outcome) (times : ℕ → ℚ) :
    ExecResult :=
  exec_go async_call maxA ops times maxA 0 0 0 cb none

/-- The breaker after `n` consecutive failing calls through
`CircuitBreaker.call`, the `i`-th failing with exception `es i` at time
`ts i`. -/
def fail_trace (cb : CB) (es : ℕ → PyExc) (ts : ℕ → ℚ) : ℕ → CB
  | 0 => cb
  | n + 1 => (cb_call (fail_trace cb es ts n) (ts n) (.raise (es n))).cb

/-- Breaker states reachable through the subsystem's entry points:
freshly created, after a sync `CircuitBreaker.call` attempt, after an
async attempt, after the admission phase alone (the state the shared
breaker object holds between admission and the operation's completion —
the window in which HALF_OPEN is observable), and after a manual
`reset()`. -/
inductive ReachableCB : CB → Prop where
  | fresh (T : ℕ) (R : ℚ) : ReachableCB (CB.fresh T R)
  | syncStep (cb : CB) (now : ℚ) (out : Outcome) :
      ReachableCB cb → ReachableCB (cb_call cb now out).cb
  | asyncStep (cb : CB) (now : ℚ) (out : Outcome) :
      ReachableCB cb → ReachableCB (async_call cb now out).cb
  | admitted (cb cb1 : CB) (now : ℚ) :
      ReachableCB cb → admission cb now = .inr cb1 → ReachableCB cb1
  | manualReset (cb : CB) :
      ReachableCB cb →
      ReachableCB { cb with state := .closed, failure_count := 0, last_failure_time := none }

end ErrorHandler

namespace Quota

/-- State of one `QuotaTracker`: the three per-period limits
(`config.get('..._limit', float('inf'))`, with `none` modelling the
infinite default), the `current_usage` counters, and the `last_reset`
timestamps truncated to their period. -/
structure QuotaTracker where
  daily_limit : Option ℚ
  hourly_limit : Option ℚ
  minute_limit : Option ℚ
  used_daily : ℕ
  used_hourly : ℕ
  used_minute : ℕ
  last_reset_day : ℕ
  last_reset_hour : ℕ
  last_reset_minute : ℕ
deriving DecidableEq, Repr

/-- A wall-clock instant as seen by `QuotaTracker`: the calendar day
ordinal, absolute hour index and absolute minute index of
`datetime.now()`.  Comparing datetimes truncated to a period in the
source is exactly comparing these indices. -/
structure Instant where
  day : ℕ
  hour : ℕ
  minute : ℕ
deriving DecidableEq, Repr

/-- `QuotaTracker._check_and_reset_quotas`: zero a counter when its
period has rolled over since the recorded reset point. -/
def check_and_reset_quotas (qt : QuotaTracker) (now : Instant) : QuotaTracker :=
  let q1 := if qt.last_reset_day < now.day then
      { qt with used_daily := 0, last_reset_day := now.day } else qt
  let q2 := if q1.last_reset_hour < now.hour then
      { q1 with used_hourly := 0, last_reset_hour := now.hour } else q1
  if q2.last_reset_minute < now.minute then
    { q2 with used_minute := 0, last_reset_minute := now.minute } else q2

/-- Truthiness of `usage + 1 > limit` against a possibly-infinite limit
(`x + 1 > float('inf')` is always false). -/
def would_exceed (used : ℕ) (lim : Option ℚ) : Bool :=
  match lim with
  | none => false
  | some l => decide (l < (used : ℚ) + 1)

/-- `QuotaTracker.increment_usage`: after the lazy period reset, check
all three ceilings and either fail with no counter touched, or increment
all three counters together. -/
def increment_usage (qt : QuotaTracker) (now : Instant) : Bool × QuotaTracker :=
  let q := check_and_reset_quotas qt now
  if would_exceed q.used_daily q.daily_limit || would_exceed q.used_hourly q.hourly_limit
      || would_exceed q.used_minute q.minute_limit then
    (false, q)
  else
    (true, { q with
      used_daily := q.used_daily + 1
      used_hourly := q.used_hourly + 1
      used_minute := q.used_minute + 1 })

/-- State of one `RateLimiter` token bucket. -/
structure RateLimiter where
  requests_per_second : ℚ
  burst_limit : ℚ
  tokens : ℚ
  last_refill : ℚ
deriving DecidableEq, Repr

/-- A freshly constructed `RateLimiter`: the bucket starts full. -/
def RateLimiter.fresh (rate burst now : ℚ) : RateLimiter :=
  { requests_per_second := rate, burst_limit := burst, tokens := burst, last_refill := now }

/-- `RateLimiter._refill_tokens`: lazy refill by elapsed wall-clock time,
capped at the burst limit. -/
def refill_tokens (rl : RateLimiter) (now : ℚ) : RateLimiter :=
  { rl with
    tokens := min rl.burst_limit (rl.tokens + (now - rl.last_refill) * rl.requests_per_second)
    last_refill := now }

/-- `RateLimiter.can_make_request`: refill, then report whether at least
one full token is available (the refill mutates the bucket). -/
def can_make_request (rl : RateLimiter) (now : ℚ) : Bool × RateLimiter :=
  let r := refill_tokens rl now
  (decide (1 ≤ r.tokens), r)

/-- `RateLimiter.consume_token`: refill, then take one token if at least
one full token is available. -/
def consume_token (rl : RateLimiter) (now : ℚ) : Bool × RateLimiter :=
  let r := refill_tokens rl now
  if 1 ≤ r.tokens then (true, { r with tokens := r.tokens - 1 }) else (false, r)

/-- `RateLimiter.get_wait_time`: refill, then report `0.0` when a token
is available and `(1.0 - tokens) / requests_per_second` otherwise. -/
def get_wait_time (rl : RateLimiter) (now : ℚ) : ℚ × RateLimiter :=
  let r := refill_tokens rl now
  if 1 ≤ r.tokens then (0, r)
  else ((1 - r.tokens) / r.requests_per_second, r)

/-- The per-service pair held by `QuotaManager` for one known API name. -/
structure ServiceState where
  qt : QuotaTracker
  rl : RateLimiter
deriving DecidableEq, Repr

/-- `QuotaManager.record_request` for a known API name.  The Python body
is `if rate_limiter.consume_token() and quota_tracker.increment_usage():`,
so `increment_usage` runs only when `consume_token` succeeded, and a
token consumed by a successful `consume_token` is not restored when the
quota check then fails. -/
def record_request (s : ServiceState) (now : ℚ) (inst : Instant) : Bool × ServiceState :=
  let c := consume_token s.rl now
  if c.1 then
    let i := increment_usage s.qt inst
    (i.1, ⟨i.2, c.2⟩)
  else (false, ⟨s.qt, c.2⟩)

end Quota

namespace Clusterer

/-- A Python string modelled as its list of character code points. -/
abbrev PyStr := List ℕ

/-- ASCII whitespace in the sense of Python's `\s` and `str.split`:
space (32) and the control characters 9–13. -/
def isWS (c : ℕ) : Bool := decide (c = 32 ∨ (9 ≤ c ∧ c ≤ 13))

/-- `str.lower` on one code point (ASCII case mapping; the clusterer
handles ASCII ontology labels). -/
def lowerChar (c : ℕ) : ℕ := if 65 ≤ c ∧ c ≤ 90 then c + 32 else c

/-- `str.lower` over a whole string. -/
def pyLower (s : PyStr) : PyStr := s.map lowerChar

/-- The character analyzer normalisation `re.sub(r"\s\s+", " ", doc)`
performed by sklearn's `TfidfVectorizer(analyzer='char')`: every run of
two or more whitespace characters becomes a single space; an isolated
whitespace character is kept as it is. -/
def collapseWS : PyStr → PyStr
  | [] => []
  | [c] => [c]
  | c :: d :: rest =>
    if isWS c then
      if isWS d then 32 :: collapseWS ((d :: rest).dropWhile isWS)
      else c :: collapseWS (d :: rest)
    else c :: collapseWS (d :: rest)
  termination_by s => s.length
  decreasing_by
  all_goals first
    | (simp only [List.length_cons]; omega)
    | (have h1 := (List.dropWhile_sublist (l := d :: rest) isWS).length_le
       simp only [List.length_cons] at h1 ⊢
       omega)

/-- `str.split()` with no separator: split on whitespace runs, dropping
empty pieces. -/
def splitWS : PyStr → List PyStr
  | [] => []
  | c :: rest =>
    if isWS c then splitWS rest
    else (c :: rest.takeWhile (fun d => !isWS d)) ::
      splitWS (rest.dropWhile (fun d => !isWS d))
  termination_by s => s.length
  decreasing_by
  all_goals first
    | (simp only [List.length_cons]; omega)
    | (have h1 := (List.dropWhile_sublist (l := rest) (fun d => !isWS d)).length_le
       simp only [List.length_cons] at h1 ⊢
       omega)

/-- The Levenshtein edit distance, as computed by the
`Levenshtein.distance` library call in `_levenshtein_similarity`. -/
def lev : PyStr → PyStr → ℕ
  | [], ys => ys.length
  | _ :: xs, [] => xs.length + 1
  | x :: xs, y :: ys =>
    min (lev xs ys + (if x = y then 0 else 1))
      (min (lev xs (y :: ys) + 1) (lev (x :: xs) ys + 1))
  termination_by a b => a.length + b.length
  decreasing_by
  all_goals (simp only [List.length_cons]; omega)

/-- `TermClusterer._jaccard_similarity`: the Jaccard index of the
whitespace token sets of the two lowercased terms (`0.0` when the union
is empty). -/
def jaccard_similarity (t1 t2 : PyStr) : ℚ :=
  let s1 := (splitWS (pyLower t1)).toFinset
  let s2 := (splitWS (pyLower t2)).toFinset
  let u := (s1 ∪ s2).card
  if 0 < u then ((s1 ∩ s2).card : ℚ) / u else 0

/-- `TermClusterer._levenshtein_similarity`: distance on the lowercased
terms, normalised by the length of the longer original term (`1.0` when
both are empty). -/
def levenshtein_similarity (t1 t2 : PyStr) : ℚ :=
  let maxLen := max t1.length t2.length
  if 0 < maxLen then 1 - (lev (pyLower t1) (pyLower t2) : ℚ) / (maxLen : ℚ) else 1

/-- Character n-grams of length `n` of a document, in positional order
(sklearn's `_char_ngrams` inner loop). -/
def ngrams (n : ℕ) (s : PyStr) : List PyStr :=
  (List.range (s.length + 1 - n)).map fun i => (s.drop i).take n

/-- All features `TfidfVectorizer(analyzer='char', ngram_range=(2,3))`
extracts from one document. -/
def charFeatures (s : PyStr) : List PyStr := ngrams 2 s ++ ngrams 3 s

/-- The document the vectorizer sees for a term: the source passes
`term.lower()` and the vectorizer lowercases once more (its default
`lowercase=True`) before whitespace normalisation. -/
def procDoc (t : PyStr) : PyStr := collapseWS (pyLower (pyLower t))

/-- Term frequency of feature `g` in the processed document of `t`
(raw counts: `sublinear_tf` is off by default). -/
def tf (t : PyStr) (g : PyStr) : ℕ := (charFeatures (procDoc t)).count g

/-- The fitted vocabulary of the two-document corpus. -/
def vocab (t1 t2 : PyStr) : Finset PyStr :=
  (charFeatures (procDoc t1)).toFinset ∪ (charFeatures (procDoc t2)).toFinset

/-- Document frequency of feature `g` in the two-document corpus. -/
def df (t1 t2 : PyStr) (g : PyStr) : ℕ :=
  (if 0 < tf t1 g then 1 else 0) + (if 0 < tf t2 g then 1 else 0)

/-- Smoothed inverse document frequency with two documents
(`TfidfTransformer` default `smooth_idf=True`):
`ln((1 + n) / (1 + df)) + 1` with `n = 2`. -/
noncomputable def idf (d : ℕ) : ℝ := Real.log ((1 + 2) / (1 + (d : ℝ))) + 1

/-- TF-IDF weight of feature `g` in the row of `t`, fitting on the
corpus `[t1, t2]`. -/
noncomputable def weight (t1 t2 t : PyStr) (g : PyStr) : ℝ :=
  (tf t g : ℝ) * idf (df t1 t2 g)

/-- Dot product of the two TF-IDF rows. -/
noncomputable def dotProd (t1 t2 : PyStr) : ℝ :=
  ∑ g ∈ vocab t1 t2, weight t1 t2 t1 g * weight t1 t2 t2 g

/-- Euclidean norm of the TF-IDF row of `t`. -/
noncomputable def rowNorm (t1 t2 t : PyStr) : ℝ :=
  Real.sqrt (∑ g ∈ vocab t1 t2, weight t1 t2 t g ^ 2)

/-- Round a real to the nearest integer with ties to the even integer,
as Python's builtin `round` does. -/
noncomputable def roundHalfEven (y : ℝ) : ℤ :=
  if y - (⌊y⌋ : ℝ) < 1 / 2 then ⌊y⌋
  else if (1 : ℝ) / 2 < y - (⌊y⌋ : ℝ) then ⌊y⌋ + 1
  else if Even ⌊y⌋ then ⌊y⌋ else ⌊y⌋ + 1

/-- Python's `round(x, 10)` on the similarity value. -/
noncomputable def pyRound10 (x : ℝ) : ℝ :=
  (roundHalfEven (x * 10 ^ 10) : ℝ) / 10 ^ 10

/-- `TermClusterer._cosine_similarity`: TF-IDF cosine of the two
processed documents, rounded to 10 decimal places.  When neither
document yields an n-gram, `fit_transform` raises on the empty
vocabulary and the bare `except` returns `0.0`.  A zero row stays zero
through l2 normalisation (both in `TfidfTransformer` and inside
`sklearn.metrics.pairwise.cosine_similarity`), and then the dot product
is zero as well, so dividing the dot product by the norms with `0`
replaced by `1` computes exactly the library's result. -/
noncomputable def cosine_similarity (t1 t2 : PyStr) : ℝ :=
  if vocab t1 t2 = ∅ then 0
  else
    let n1 := rowNorm t1 t2 t1
    let n2 := rowNorm t1 t2 t2
    pyRound10 (dotProd t1 t2 / ((if n1 = 0 then 1 else n1) * (if n2 = 0 then 1 else n2)))

/-- `TermClusterer.calculate_string_similarity`: the empty-term guard,
then dispatch on the configured method string (an unknown method falls
back to cosine). -/
noncomputable def calculate_string_similarity (method : String) (t1 t2 : PyStr) : ℝ :=
  if t1 = [] ∨ t2 = [] then 0
  else if method = "jaccard" then (jaccard_similarity t1 t2 : ℝ)
  else if method = "cosine" then cosine_similarity t1 t2
  else if method = "levenshtein" then (levenshtein_similarity t1 t2 : ℝ)
  else cosine_similarity t1 t2

/-- `TermClusterer.calculate_similarity_matrix` on a nonempty term list
(the empty list returns `None` in the source): `1.0` on the diagonal,
pairwise similarity elsewhere. -/
noncomputable def calculate_similarity_matrix (method : String) (terms : List PyStr)
    (i j : Fin terms.length) : ℝ :=
  if i = j then 1 else calculate_string_similarity method (terms.get i) (terms.get j)

/-- First occurrence of each label, in order of first appearance: the
key order of the `clusters` dict that
`for i, label in enumerate(cluster_labels): clusters[label].append(...)`
builds. -/
def firstOccs : List ℕ → List ℕ
  | [] => []
  | a :: l => a :: (firstOccs l).filter (fun b => b ≠ a)

/-- The terms sitting at the positions that carry label `lab`, in
positional order: the value list of the cluster keyed `lab`. -/
def clusterOf (terms : List PyStr) (labels : List ℕ) (lab : ℕ) : List PyStr :=
  ((terms.zip labels).filter (fun p => p.2 == lab)).map Prod.fst

/-- The `clusters` dict, as an association list in key-insertion order. -/
def groupClusters (terms : List PyStr) (labels : List ℕ) : List (ℕ × List PyStr) :=
  (firstOccs labels).map fun lab => (lab, clusterOf terms labels lab)

/-- Result shape of `cluster_similar_terms`: the `clusters` dict and the
`cluster_labels` list (its `similarity_matrix` entry is
`calculate_similarity_matrix` and carries no clustering content). -/
structure ClusterResult where
  clusters : List (ℕ × List PyStr)
  cluster_labels : List ℕ
deriving DecidableEq, Repr

/-- `TermClusterer._determine_optimal_clusters` under the default
configuration (`similarity_threshold = 0.7` is truthy): `len(terms)` for
at most two terms, otherwise the number of distinct labels produced by
`scipy.cluster.hierarchy.fcluster` cutting the linkage dendrogram at the
threshold.  The scipy computation is an external library call; its label
vector is the `fc` parameter. -/
def determine_optimal_clusters (terms : List PyStr) (fc : List ℕ) : ℕ :=
  if terms.length ≤ 2 then terms.length else fc.dedup.length

/-- `TermClusterer.cluster_similar_terms`.  The
`AgglomerativeClustering(n_clusters=k, ...).fit_predict` call is an
external library call; `fp k` is the label vector it returns when asked
for `k` clusters.  Its documented contract — one label per sample and
exactly `k` distinct labels when `1 ≤ k ≤ n` — appears as a hypothesis
of the theorems below. -/
def cluster_similar_terms (terms : List PyStr) (fc : List ℕ) (fp : ℕ → List ℕ) :
    ClusterResult :=
  match terms with
  | [] => ⟨[], []⟩
  | [t] => ⟨[(0, [t])], [0]⟩
  | _ =>
    let k := determine_optimal_clusters terms fc
    let labels := fp k
    ⟨groupClusters terms labels, labels⟩

end Clusterer

/-!
Theorems settling the claims.  `Cn_...` is the main theorem for claim n.
-/

open ErrorHandler Quota Clusterer

/-- C2 (code evaluated at the failing input): the claim states that every
SSL/TLS fault — explicitly including one that is also a connection-error
subclass, which `requests.exceptions.SSLError` always is — classifies as
`(is_retryable = False, severity = HIGH)`.  The classifier's isinstance
order instead catches `SSLError` in the `(ConnectionError, Timeout)`
branch first, returning `(True, MEDIUM)`, so the dedicated SSL branch is
unreachable for requests' `SSLError`. -/
theorem C2_ssl_fault_classified_retryable_medium :
    is_connection_error PyExc.sslError = true ∧
    classify_exception PyExc.sslError = (true, Severity.medium) := by
  decide

/-- C1 (code evaluated at the failing input): the claim states that the
synchronous and asynchronous retry entry points leave the breaker in the
same state on every input, in particular on a call rejected because the
circuit is OPEN.  With breaker state OPEN, `failure_count = 5`,
`last_failure_time = 100`, `recovery_timeout = 300` and a call at time
150: both variants propagate the circuit-open signal without invoking the
operation, but the sync variant leaves the breaker untouched while the
async variant's `except` block runs `_record_failure()`, bumping
`failure_count` to 6 and advancing `last_failure_time` to 150. -/
theorem C1_sync_async_rejection_divergence :
    execute_with_retry 3 ⟨5, 300, 5, some 100, .opened⟩ (fun _ => .ok 0) (fun _ => 150) =
      ⟨.error .nonRetryableCircuitOpen, 0, 0, ⟨5, 300, 5, some 100, .opened⟩⟩ ∧
    async_execute_with_retry 3 ⟨5, 300, 5, some 100, .opened⟩ (fun _ => .ok 0) (fun _ => 150) =
      ⟨.error .nonRetryableCircuitOpen, 0, 0, ⟨5, 300, 6, some 150, .opened⟩⟩ := by
  norm_num [execute_with_retry, async_execute_with_retry, exec_go, cb_call, async_call,
    admission, should_attempt_reset, invoke_phase, record_failure, should_retry,
    classify_exception, is_connection_error, is_timeout, is_ssl_error, is_proxy_error,
    is_chunked_encoding_error, is_http_error, is_request_exception]

/-- Auxiliary: `_record_failure` preserves the property that an OPEN or
HALF_OPEN breaker has already reached its failure threshold. -/
theorem record_failure_keeps_threshold (c : CB) (t : ℚ)
    (hc : c.state = .opened ∨ c.state = .halfOpen → c.failure_threshold ≤ c.failure_count) :
    (record_failure c t).state = .opened ∨ (record_failure c t).state = .halfOpen →
      (record_failure c t).failure_threshold ≤ (record_failure c t).failure_count := by
  by_cases hT : c.failure_threshold ≤ c.failure_count + 1
  · simp [record_failure, hT]
  · simp [record_failure, hT]
    refine ⟨fun hs => ?_, fun hs => ?_⟩
    · exact hT (le_trans (hc (Or.inl hs)) (Nat.le_succ _))
    · exact hT (le_trans (hc (Or.inr hs)) (Nat.le_succ _))

/-- Auxiliary invariant: every reachable OPEN or HALF_OPEN breaker state
carries `failure_threshold ≤ failure_count`: the threshold had been
reached when the circuit opened, the OPEN → HALF_OPEN transition keeps
the count, and failures only increase it. -/
theorem reachable_threshold_le_count (cb : CB) (h : ReachableCB cb) :
    cb.state = .opened ∨ cb.state = .halfOpen → cb.failure_threshold ≤ cb.failure_count := by
  induction h with
  | fresh T R => simp [CB.fresh]
  | syncStep cb now out hr ih =>
    by_cases hop : cb.state = .opened
    · by_cases hres : should_attempt_reset cb now
      · cases out with
        | ok v => simp [cb_call, admission, hop, hres, invoke_phase]
        | raise e =>
          simp [cb_call, admission, hop, hres, invoke_phase]
          exact record_failure_keeps_threshold _ _ (fun _ => ih (Or.inl hop))
      · simpa [cb_call, admission, hop, hres] using ih
    · cases out with
      | ok v =>
        by_cases hho : cb.state = .halfOpen
        · simp [cb_call, admission, hop, invoke_phase, hho]
        · simp [cb_call, admission, hop, invoke_phase, hho]
      | raise e =>
        simp [cb_call, admission, hop, invoke_phase]
        exact record_failure_keeps_threshold _ _ ih
  | asyncStep cb now out hr ih =>
    by_cases hop : cb.state = .opened
    · by_cases hres : should_attempt_reset cb now
      · cases out with
        | ok v => simp [async_call, admission, hop, hres, invoke_phase]
        | raise e =>
          simp [async_call, admission, hop, hres, invoke_phase]
          exact record_failure_keeps_threshold _ _ (fun _ => ih (Or.inl hop))
      · simp [async_call, admission, hop, hres]
        exact record_failure_keeps_threshold _ _ ih
    · cases out with
      | ok v =>
        by_cases hho : cb.state = .halfOpen
        · simp [async_call, admission, hop, invoke_phase, hho]
        · simp [async_call, admission, hop, invoke_phase, hho]
      | raise e =>
        simp [async_call, admission, hop, invoke_phase]
        exact record_failure_keeps_threshold _ _ ih
  | admitted cb cb1 now hr hadm ih =>
    by_cases hop : cb.state = .opened
    · by_cases hres : should_attempt_reset cb now
      · simp [admission, hop, hres] at hadm
        subst hadm
        exact fun _ => ih (Or.inl hop)
      · simp [admission, hop, hres] at hadm
    · simp [admission, hop] at hadm
      subst hadm
      exact ih
  | manualReset cb hr ih => simp

/-- C5: in every reachable HALF_OPEN state of a circuit breaker, one
single failing call transitions the breaker back to OPEN, incrementing
`failure_count` and recording the failure timestamp — it does not take
`failure_threshold` further failures to reopen. -/
theorem C5_half_open_single_failure_reopens (cb : CB) (h : ReachableCB cb)
    (hho : cb.state = .halfOpen) (now : ℚ) (e : PyExc) :
    cb_call cb now (.raise e) =
      ⟨true, .error e,
        { cb with failure_count := cb.failure_count + 1,
                  last_failure_time := some now, state := .opened }⟩ := by
  have hT : cb.failure_threshold ≤ cb.failure_count :=
    reachable_threshold_le_count cb h (Or.inr hho)
  have hop : ¬cb.state = .opened := by rw [hho]; simp
  simp [cb_call, admission, hop, invoke_phase, record_failure,
    le_trans hT (Nat.le_succ _)]

/-- C5 witness: a breaker with threshold 1 opens after one failure at
time 1, is admitted at time 12 (timeout 10 elapsed) into HALF_OPEN, and
from that reachable HALF_OPEN state one failing call at time 12 reopens
the circuit with `failure_count = 2`. -/
theorem C5_witness :
    cb_call ⟨1, 10, 1, some 1, .halfOpen⟩ 12 (.raise .otherExc) =
      ⟨true, .error .otherExc, ⟨1, 10, 2, some 12, .opened⟩⟩ := by
  have h0 : ReachableCB (⟨1, 10, 1, some 1, .opened⟩ : CB) := by
    have h := ReachableCB.syncStep (CB.fresh 1 10) 1 (.raise .otherExc)
      (ReachableCB.fresh 1 10)
    simpa [cb_call, admission, CB.fresh, invoke_phase, record_failure] using h
  have h1 : ReachableCB (⟨1, 10, 1, some 1, .halfOpen⟩ : CB) := by
    refine ReachableCB.admitted _ _ 12 h0 ?_
    norm_num [admission, should_attempt_reset]
  exact C5_half_open_single_failure_reopens _ h1 rfl 12 .otherExc

/-- C4: starting from a freshly created breaker with threshold `T ≥ 1`
and recovery timeout `R > 0`, the state is still CLOSED strictly before
the `T`-th consecutive failing call and OPEN with `failure_count = T`
right after exactly `T` of them; while less than `R` has elapsed since
the last failure a further call raises the circuit-open signal without
invoking the operation and leaves the breaker unchanged; once `R` has
elapsed the next call is admitted — moving the state to HALF_OPEN first —
and, if it succeeds, the breaker returns to CLOSED with
`failure_count = 0`. -/
theorem C4_threshold_recovery (T : ℕ) (R : ℚ) (es : ℕ → PyExc) (ts : ℕ → ℚ) (v : ℤ)
    (hT : 1 ≤ T) (hR : 0 < R) (hts : ∀ i, 0 < ts i) :
    (∀ i, i < T → (fail_trace (CB.fresh T R) es ts i).state = .closed) ∧
    (fail_trace (CB.fresh T R) es ts T).state = .opened ∧
    (fail_trace (CB.fresh T R) es ts T).failure_count = T ∧
    (fail_trace (CB.fresh T R) es ts T).last_failure_time = some (ts (T - 1)) ∧
    (∀ now out, now - ts (T - 1) < R →
      cb_call (fail_trace (CB.fresh T R) es ts T) now out =
        ⟨false, .error .nonRetryableCircuitOpen, fail_trace (CB.fresh T R) es ts T⟩) ∧
    (∀ now, R ≤ now - ts (T - 1) →
      admission (fail_trace (CB.fresh T R) es ts T) now =
        .inr { fail_trace (CB.fresh T R) es ts T with state := .halfOpen } ∧
      cb_call (fail_trace (CB.fresh T R) es ts T) now (.ok v) =
        ⟨true, .ok v,
          { fail_trace (CB.fresh T R) es ts T with
              state := .closed, failure_count := 0 }⟩) := by
  have key : ∀ i, i ≤ T →
      fail_trace (CB.fresh T R) es ts i =
        { failure_threshold := T, recovery_timeout := R, failure_count := i,
          last_failure_time := match i with | 0 => none | j + 1 => some (ts j),
          state := if T ≤ i then .opened else .closed } := by
    intro i
    induction i with
    | zero =>
      intro _
      have : ¬T ≤ 0 := by omega
      simp [fail_trace, CB.fresh, this]
    | succ j ih =>
      intro hi
      have hj : j ≤ T := by omega
      have hjT : ¬T ≤ j := by omega
      rw [fail_trace, ih hj]
      simp [cb_call, admission, hjT, invoke_phase, record_failure]
  obtain ⟨S, rfl⟩ : ∃ S, T = S + 1 := ⟨T - 1, by omega⟩
  have hkeyT := key (S + 1) le_rfl
  refine ⟨?_, ?_, ?_, ?_, ?_, ?_⟩
  · intro i hi
    rw [key i (le_of_lt hi)]
    simp [Nat.not_le.mpr hi]
  · rw [hkeyT]; simp
  · rw [hkeyT]
  · rw [hkeyT]; simp
  · intro now out hnow
    rw [hkeyT]
    have hreset : ¬(R ≤ now - ts S) := not_le.mpr (by simpa using hnow)
    simp [cb_call, admission, should_attempt_reset, hreset]
  · intro now hnow
    rw [hkeyT]
    have hnow1 : R ≤ now - ts S := by simpa using hnow
    have hne : ts S ≠ 0 := ne_of_gt (hts S)
    constructor
    · simp [admission, should_attempt_reset, hne, hnow1]
    · simp [cb_call, admission, should_attempt_reset, hne, hnow1, invoke_phase]

/-- C4 witness: with threshold 1 and timeout 2, one failure at time 1
opens the circuit; a call at time 2 is rejected unchanged; a call at time
4 is admitted (HALF_OPEN first) and its success closes the circuit with
zero failures. -/
theorem C4_witness :
    (fail_trace (CB.fresh 1 2) (fun _ => .otherExc) (fun _ => 1) 1).state = .opened ∧
    cb_call (fail_trace (CB.fresh 1 2) (fun _ => .otherExc) (fun _ => 1) 1) 2 (.ok 7) =
      ⟨false, .error .nonRetryableCircuitOpen,
        fail_trace (CB.fresh 1 2) (fun _ => .otherExc) (fun _ => 1) 1⟩ ∧
    cb_call (fail_trace (CB.fresh 1 2) (fun _ => .otherExc) (fun _ => 1) 1) 4 (.ok 7) =
      ⟨true, .ok 7,
        { fail_trace (CB.fresh 1 2) (fun _ => .otherExc) (fun _ => 1) 1 with
            state := .closed, failure_count := 0 }⟩ := by
  have h := C4_threshold_recovery 1 2 (fun _ => .otherExc) (fun _ => 1) 7
    le_rfl (by norm_num) (fun i => by norm_num)
  exact ⟨h.2.1, h.2.2.2.2.1 2 (.ok 7) (by norm_num), (h.2.2.2.2.2 4 (by norm_num)).2⟩

/-- Auxiliary: the classifier never returns a retryable verdict together
with CRITICAL severity, so `should_retry` on a retryable fault is decided
by the attempt budget alone. -/
theorem classify_retryable_not_critical (e : PyExc)
    (h : (classify_exception e).1 = true) : ¬(classify_exception e).2 = .critical := by
  cases e <;>
    simp [classify_exception, is_connection_error, is_timeout, is_ssl_error,
      is_proxy_error, is_chunked_encoding_error, is_http_error,
      is_request_exception] at h ⊢
  case httpError st =>
    cases st with
    | none => simp at h
    | some st =>
      simp [RETRYABLE_STATUS_CODES, NON_RETRYABLE_STATUS_CODES] at h ⊢
      split_ifs at h ⊢ <;> simp_all

/-- C6: with `max_attempts = 3` and a fresh handler whose breaker
threshold exceeds the failures incurred (`T > 2`, the default is 5):
against an operation raising retryable faults on its first two
invocations and succeeding on the third, `execute_with_retry` returns the
success value and the operation is invoked exactly 3 times; against an
operation that always raises a non-retryable or CRITICAL-severity fault,
the exception propagates after exactly one invocation with no backoff
sleep. -/
theorem C6_retry_termination (T : ℕ) (R : ℚ) (hT : 2 < T)
    (e1 e2 : PyExc) (he1 : (classify_exception e1).1 = true)
    (he2 : (classify_exception e2).1 = true)
    (f : PyExc) (hf : (classify_exception f).1 = false ∨ (classify_exception f).2 = .critical)
    (v : ℤ) (ts : ℕ → ℚ) :
    (execute_with_retry 3 (CB.fresh T R)
        (fun i => if i = 0 then .raise e1 else if i = 1 then .raise e2 else .ok v)
        ts).result = .ok v ∧
    (execute_with_retry 3 (CB.fresh T R)
        (fun i => if i = 0 then .raise e1 else if i = 1 then .raise e2 else .ok v)
        ts).invocations = 3 ∧
    execute_with_retry 3 (CB.fresh T R) (fun _ => .raise f) ts =
      ⟨.error f, 1, 0, record_failure (CB.fresh T R) (ts 0)⟩ := by
  have hc1 := classify_retryable_not_critical e1 he1
  have hc2 := classify_retryable_not_critical e2 he2
  have hr1 : should_retry e1 0 3 = true := by simp [should_retry, hc1, he1]
  have hr2 : should_retry e2 1 3 = true := by simp [should_retry, hc2, he2]
  have hrf : should_retry f 0 3 = false := by
    rcases hf with hf | hf
    · simp [should_retry, hf]
    · simp [should_retry, hf]
  have hT1 : ¬T ≤ 0 + 1 := by omega
  have hT2 : ¬T ≤ 1 + 1 := by omega
  refine ⟨?_, ?_, ?_⟩
  · simp [execute_with_retry, exec_go, cb_call, admission, CB.fresh, invoke_phase,
      record_failure, hr1, hr2, hT1, hT2]
  · simp [execute_with_retry, exec_go, cb_call, admission, CB.fresh, invoke_phase,
      record_failure, hr1, hr2, hT1, hT2]
  · simp [execute_with_retry, exec_go, cb_call, admission, CB.fresh, invoke_phase, hrf]

/-- C6 witness: threshold 5, timeout 300; two `ConnectionError`s then a
success return 7 after exactly 3 invocations, and a `ValueError`-like
unknown fault (classified non-retryable CRITICAL) propagates after one
invocation with no sleep. -/
theorem C6_witness :
    (execute_with_retry 3 (CB.fresh 5 300)
        (fun i => if i = 0 then .raise .connectionError
                  else if i = 1 then .raise .connectionError else .ok 7)
        (fun _ => 1)).result = .ok 7 ∧
    (execute_with_retry 3 (CB.fresh 5 300)
        (fun i => if i = 0 then .raise .connectionError
                  else if i = 1 then .raise .connectionError else .ok 7)
        (fun _ => 1)).invocations = 3 ∧
    execute_with_retry 3 (CB.fresh 5 300) (fun _ => .raise .otherExc) (fun _ => 1) =
      ⟨.error .otherExc, 1, 0, record_failure (CB.fresh 5 300) 1⟩ :=
  C6_retry_termination 5 300 (by decide) .connectionError .connectionError
    (by decide) (by decide) .otherExc (Or.inl (by decide)) 7 (fun _ => 1)

/-- C3 counterexample: a service whose daily quota is exhausted
(`daily_limit = 1`, one request already recorded, no period rollover) and
whose token bucket holds one token: `record_request` returns `False`,
yet the token count has dropped from 1 to 0 — the short-circuit consumed
a rate-limit token before the quota check rejected the request. -/
theorem C3_counterexample :
    (record_request ⟨⟨some 1, none, none, 1, 0, 0, 1, 1, 1⟩, ⟨1, 1, 1, 0⟩⟩ 0 ⟨1, 1, 1⟩).1
      = false ∧
    (record_request ⟨⟨some 1, none, none, 1, 0, 0, 1, 1, 1⟩, ⟨1, 1, 1, 0⟩⟩ 0 ⟨1, 1, 1⟩).2.rl.tokens
      = 0 ∧
    (⟨1, 1, 1, 0⟩ : RateLimiter).tokens = 1 := by
  norm_num [record_request, consume_token, refill_tokens, increment_usage,
    check_and_reset_quotas, would_exceed]

/-- C3 as amended: whenever `record_request` returns `False`, the three
quota counters are never incremented — they are exactly those of the
tracker after at most the lazy period reset — but the token bucket is
still lazily refilled, and precisely when the refilled bucket held a full
token (so the rejection came from the quota check, not the rate limiter)
that token has been consumed and is not restored. -/
theorem C3_failed_record_request_state (s : ServiceState) (now : ℚ) (inst : Instant)
    (h : (record_request s now inst).1 = false) :
    ((refill_tokens s.rl now).tokens < 1 ∧
      (record_request s now inst).2 = ⟨s.qt, refill_tokens s.rl now⟩) ∨
    (1 ≤ (refill_tokens s.rl now).tokens ∧
      (record_request s now inst).2 =
        ⟨check_and_reset_quotas s.qt inst,
          { refill_tokens s.rl now with
              tokens := (refill_tokens s.rl now).tokens - 1 }⟩) := by
  by_cases h1 : 1 ≤ (refill_tokens s.rl now).tokens
  · right
    refine ⟨h1, ?_⟩
    have hc2 : consume_token s.rl now =
        (true, { refill_tokens s.rl now with
                   tokens := (refill_tokens s.rl now).tokens - 1 }) := by
      simp only [consume_token]
      rw [if_pos h1]
    have hi : increment_usage s.qt inst = (false, check_and_reset_quotas s.qt inst) := by
      have h2 : (increment_usage s.qt inst).1 = false := by
        simpa [record_request, hc2] using h
      revert h2
      simp only [increment_usage]
      split_ifs with h3
      · intro _; rfl
      · intro h2; simp at h2
    simp only [record_request, hc2, hi]
    simp
  · left
    refine ⟨not_le.mp h1, ?_⟩
    have hc2 : consume_token s.rl now = (false, refill_tokens s.rl now) := by
      simp only [consume_token]
      rw [if_neg h1]
    simp only [record_request, hc2]
    simp

/-- C3 witness: the amended statement applied at the counterexample
state, where the rejection comes from the exhausted daily quota and one
token is consumed. -/
theorem C3_witness :
    (1 : ℚ) ≤ (refill_tokens ⟨1, 1, 1, 0⟩ 0).tokens ∧
    (record_request ⟨⟨some 1, none, none, 1, 0, 0, 1, 1, 1⟩, ⟨1, 1, 1, 0⟩⟩ 0 ⟨1, 1, 1⟩).2 =
      ⟨check_and_reset_quotas ⟨some 1, none, none, 1, 0, 0, 1, 1, 1⟩ ⟨1, 1, 1⟩,
        { refill_tokens ⟨1, 1, 1, 0⟩ 0 with
            tokens := (refill_tokens ⟨1, 1, 1, 0⟩ 0).tokens - 1 }⟩ := by
  have h := C3_failed_record_request_state
    ⟨⟨some 1, none, none, 1, 0, 0, 1, 1, 1⟩, ⟨1, 1, 1, 0⟩⟩ 0 ⟨1, 1, 1⟩
    (by norm_num [record_request, consume_token, refill_tokens, increment_usage,
      check_and_reset_quotas, would_exceed])
  rcases h with ⟨h1, _⟩ | ⟨h1, h2⟩
  · exact absurd h1 (by norm_num [refill_tokens])
  · exact ⟨h1, h2⟩

/-- C7 counterexample: a bucket with capacity 5 and 2 available tokens
(post-refill) is below capacity, yet `get_wait_time` returns `0.0`
because its branch tests `tokens >= 1`, not `tokens < capacity`; the
claimed formula would give `(1 - 2) / 1 = -1`. -/
theorem C7_counterexample :
    (get_wait_time ⟨1, 5, 2, 0⟩ 0).1 = 0 ∧
    (refill_tokens ⟨1, 5, 2, 0⟩ 0).tokens < (⟨1, 5, 2, 0⟩ : RateLimiter).burst_limit ∧
    (1 - (refill_tokens ⟨1, 5, 2, 0⟩ 0).tokens) /
      (⟨1, 5, 2, 0⟩ : RateLimiter).requests_per_second = -1 := by
  norm_num [get_wait_time, refill_tokens]

/-- C7 as amended: after the lazy refill, `get_wait_time` returns
`(1 - tokens) / refill_rate` exactly when fewer than one token is
available, and `0.0` otherwise (the code's branch is `tokens >= 1`, not
a comparison with the capacity). -/
theorem C7_wait_time_formula (rl : RateLimiter) (now : ℚ) :
    ((refill_tokens rl now).tokens < 1 →
      (get_wait_time rl now).1 =
        (1 - (refill_tokens rl now).tokens) / rl.requests_per_second) ∧
    (1 ≤ (refill_tokens rl now).tokens → (get_wait_time rl now).1 = 0) := by
  have hgw : get_wait_time rl now =
      if 1 ≤ (refill_tokens rl now).tokens then ((0 : ℚ), refill_tokens rl now)
      else ((1 - (refill_tokens rl now).tokens) / rl.requests_per_second,
        refill_tokens rl now) := rfl
  constructor
  · intro h
    rw [hgw, if_neg (not_le.mpr h)]
  · intro h
    rw [hgw, if_pos h]

/-- C7 witness: an empty bucket with refill rate 2 reports a wait of
half a second. -/
theorem C7_witness :
    (refill_tokens ⟨2, 1, 0, 0⟩ 0).tokens < 1 ∧
    (get_wait_time ⟨2, 1, 0, 0⟩ 0).1 = 1 / 2 := by
  have h := (C7_wait_time_formula ⟨2, 1, 0, 0⟩ 0).1
    (by norm_num [refill_tokens])
  refine ⟨by norm_num [refill_tokens], ?_⟩
  rw [h]
  norm_num [refill_tokens]

/-- C10: the token-bucket bounds invariant.  A fresh limiter with
non-negative burst limit satisfies `0 ≤ tokens ≤ burst_limit`; with a
non-decreasing wall clock and non-negative refill rate each of
`can_make_request`, `consume_token` and `get_wait_time` preserves it;
the refill itself never lifts the count above the burst limit; and a
token is consumed only when the refilled bucket holds at least one full
token. -/
theorem C10_token_bucket_invariant (rl : RateLimiter) (now rate burst t0 : ℚ) :
    (0 ≤ burst →
      0 ≤ (RateLimiter.fresh rate burst t0).tokens ∧
      (RateLimiter.fresh rate burst t0).tokens ≤
        (RateLimiter.fresh rate burst t0).burst_limit) ∧
    (0 ≤ rl.tokens → rl.tokens ≤ rl.burst_limit → rl.last_refill ≤ now →
      0 ≤ rl.requests_per_second →
      (0 ≤ (can_make_request rl now).2.tokens ∧
        (can_make_request rl now).2.tokens ≤ (can_make_request rl now).2.burst_limit) ∧
      (0 ≤ (consume_token rl now).2.tokens ∧
        (consume_token rl now).2.tokens ≤ (consume_token rl now).2.burst_limit) ∧
      (0 ≤ (get_wait_time rl now).2.tokens ∧
        (get_wait_time rl now).2.tokens ≤ (get_wait_time rl now).2.burst_limit)) ∧
    (refill_tokens rl now).tokens ≤ rl.burst_limit ∧
    ((consume_token rl now).1 = true → 1 ≤ (refill_tokens rl now).tokens) := by
  refine ⟨fun hb => ⟨hb, le_refl _⟩, fun h0 hcap hclock hrate => ?_, min_le_left _ _, ?_⟩
  · have hb : 0 ≤ rl.burst_limit := le_trans h0 hcap
    have hadd : 0 ≤ (now - rl.last_refill) * rl.requests_per_second :=
      mul_nonneg (by linarith) hrate
    have hlo : 0 ≤ (refill_tokens rl now).tokens := by
      simp only [refill_tokens]
      exact le_min hb (by linarith)
    have hhi : (refill_tokens rl now).tokens ≤ rl.burst_limit := min_le_left _ _
    have hw2 : (get_wait_time rl now).2 = refill_tokens rl now := by
      simp only [get_wait_time]
      split_ifs <;> rfl
    refine ⟨⟨hlo, hhi⟩, ?_, by rw [hw2]; exact ⟨hlo, hhi⟩⟩
    by_cases h1 : 1 ≤ (refill_tokens rl now).tokens
    · have hc2 : (consume_token rl now).2 =
          { refill_tokens rl now with
              tokens := (refill_tokens rl now).tokens - 1 } := by
        simp only [consume_token]
        rw [if_pos h1]
      rw [hc2]
      constructor
      · show (0 : ℚ) ≤ (refill_tokens rl now).tokens - 1
        linarith
      · show (refill_tokens rl now).tokens - 1 ≤ rl.burst_limit
        linarith
    · have hc2 : (consume_token rl now).2 = refill_tokens rl now := by
        simp only [consume_token]
        rw [if_neg h1]
      rw [hc2]
      exact ⟨hlo, hhi⟩
  · intro hc
    by_cases h1 : 1 ≤ (refill_tokens rl now).tokens
    · exact h1
    · simp [consume_token, h1] at hc

/-- C10 witness: a fresh limiter with rate 1 and burst 1, consumed after
2 seconds, preserves the bounds. -/
theorem C10_witness :
    (0 ≤ (RateLimiter.fresh 1 1 0).tokens ∧
      (RateLimiter.fresh 1 1 0).tokens ≤ (RateLimiter.fresh 1 1 0).burst_limit) ∧
    0 ≤ (consume_token ⟨1, 1, 1, 0⟩ 2).2.tokens ∧
    (consume_token ⟨1, 1, 1, 0⟩ 2).2.tokens ≤ (consume_token ⟨1, 1, 1, 0⟩ 2).2.burst_limit := by
  have h := C10_token_bucket_invariant ⟨1, 1, 1, 0⟩ 2 1 1 0
  exact ⟨h.1 (by norm_num),
    (h.2.1 (by norm_num) (by norm_num) (by norm_num) (by norm_num)).2.1⟩

/-- Auxiliary: membership in the first-occurrence list is membership in
the label list. -/
theorem mem_firstOccs {a : ℕ} : ∀ l : List ℕ, a ∈ firstOccs l ↔ a ∈ l := by
  intro l
  induction l with
  | nil => simp [firstOccs]
  | cons b l ih =>
    by_cases hab : a = b
    · simp [firstOccs, hab]
    · simp [firstOccs, hab, List.mem_filter, ih]

/-- Auxiliary: the first-occurrence list has no duplicates. -/
theorem firstOccs_nodup : ∀ l : List ℕ, (firstOccs l).Nodup := by
  intro l
  induction l with
  | nil => simp [firstOccs]
  | cons b l ih =>
    refine List.Nodup.cons ?_ (List.Nodup.filter _ ih)
    intro hmem
    have := (List.mem_filter.mp hmem).2
    simp at this

/-- Auxiliary: the first-occurrence list is as long as `dedup` — both
enumerate each distinct label once. -/
theorem firstOccs_length_eq_dedup (l : List ℕ) :
    (firstOccs l).length = l.dedup.length := by
  have h1 : (firstOccs l).toFinset = l.toFinset := by
    ext a
    simp [List.mem_toFinset, mem_firstOccs]
  calc (firstOccs l).length = (firstOccs l).toFinset.card :=
        (List.toFinset_card_of_nodup (firstOccs_nodup l)).symm
    _ = l.toFinset.card := by rw [h1]
    _ = l.dedup.length := List.card_toFinset l

/-- Auxiliary: splitting a pair list by each label of a duplicate-free
covering label list accounts for every pair exactly once. -/
theorem sum_filter_lengths :
    ∀ (pairs : List (PyStr × ℕ)) (ds : List ℕ), ds.Nodup →
      (∀ p ∈ pairs, p.2 ∈ ds) →
      (ds.map (fun lab => (pairs.filter (fun p => p.2 == lab)).length)).sum = pairs.length := by
  intro pairs ds
  induction ds generalizing pairs with
  | nil =>
    intro _ hcov
    cases pairs with
    | nil => simp
    | cons p pairs => exact absurd (hcov p (by simp)) (by simp)
  | cons d ds ih =>
    intro hnd hcov
    have hd : d ∉ ds := (List.nodup_cons.mp hnd).1
    have hnd2 : ds.Nodup := (List.nodup_cons.mp hnd).2
    have hsplit : pairs.length =
        (pairs.filter (fun p => p.2 == d)).length +
        (pairs.filter (fun p => ¬(p.2 == d))).length := by
      rw [← List.countP_eq_length_filter, ← List.countP_eq_length_filter]
      exact List.length_eq_countP_add_countP (fun p => p.2 == d) pairs
    have hrest : ∀ lab ∈ ds,
        (pairs.filter (fun p => p.2 == lab)).length =
        ((pairs.filter (fun p => ¬(p.2 == d))).filter (fun p => p.2 == lab)).length := by
      intro lab hlab
      have hne : lab ≠ d := fun h => hd (h ▸ hlab)
      rw [List.filter_filter]
      congr 1
      refine List.filter_congr fun p _ => ?_
      by_cases hp : p.2 = lab
      · simp [hp, hne]
      · simp [hp]
    have hcov2 : ∀ p ∈ pairs.filter (fun p => ¬(p.2 == d)), p.2 ∈ ds := by
      intro p hp
      have h1 := List.mem_filter.mp hp
      have h2 := hcov p h1.1
      simp at h2
      rcases h2 with h2 | h2
      · exact absurd h2 (by simpa using h1.2)
      · exact h2
    calc (((d :: ds)).map (fun lab => (pairs.filter (fun p => p.2 == lab)).length)).sum
        = (pairs.filter (fun p => p.2 == d)).length +
          (ds.map (fun lab => (pairs.filter (fun p => p.2 == lab)).length)).sum := by
          simp
      _ = (pairs.filter (fun p => p.2 == d)).length +
          (ds.map (fun lab =>
            ((pairs.filter (fun p => ¬(p.2 == d))).filter (fun p => p.2 == lab)).length)).sum := by
          rw [List.map_congr_left hrest]
      _ = (pairs.filter (fun p => p.2 == d)).length +
          (pairs.filter (fun p => ¬(p.2 == d))).length := by
          rw [ih _ hnd2 hcov2]
      _ = pairs.length := hsplit.symm

/-- C9: `cluster_similar_terms` returns a complete partition — the label
list is as long as the term list, the cluster keys are pairwise distinct,
the term at every position belongs to the cluster keyed by its label, and
the cluster sizes add up to the number of positions (so no position is
assigned twice); the degenerate cases hold: no terms give the empty
result, one term a single cluster, and two terms exactly two clusters.
`fp` is the external `AgglomerativeClustering.fit_predict`, assumed to
honour its contract at the requested cluster count: one label per sample
and exactly that many distinct labels. -/
theorem C9_cluster_partition (terms : List PyStr) (fc : List ℕ) (fp : ℕ → List ℕ)
    (hfp1 : (fp (determine_optimal_clusters terms fc)).length = terms.length)
    (hfp2 : (fp (determine_optimal_clusters terms fc)).dedup.length
      = determine_optimal_clusters terms fc) :
    (cluster_similar_terms terms fc fp).cluster_labels.length = terms.length ∧
    ((cluster_similar_terms terms fc fp).clusters.map Prod.fst).Nodup ∧
    (∀ i, ∀ hi : i < terms.length, ∃ cl,
      ((cluster_similar_terms terms fc fp).cluster_labels.getD i 0, cl) ∈
        (cluster_similar_terms terms fc fp).clusters ∧
      terms.get ⟨i, hi⟩ ∈ cl) ∧
    ((cluster_similar_terms terms fc fp).clusters.map (fun p => p.2.length)).sum
      = terms.length ∧
    (terms = [] → cluster_similar_terms terms fc fp = ⟨[], []⟩) ∧
    (∀ t, terms = [t] → cluster_similar_terms terms fc fp = ⟨[(0, [t])], [0]⟩) ∧
    (terms.length = 2 → (cluster_similar_terms terms fc fp).clusters.length = 2) := by
  match terms with
  | [] =>
    refine ⟨rfl, by simp [cluster_similar_terms], ?_, rfl, fun _ => rfl, ?_, ?_⟩
    · intro i hi
      simp at hi
    · intro t ht
      simp at ht
    · intro h2
      simp at h2
  | [t1] =>
    refine ⟨rfl, by simp [cluster_similar_terms], ?_, rfl, by simp, ?_, ?_⟩
    · intro i hi
      have hi1 : i < 1 := by simpa using hi
      have hi0 : i = 0 := by omega
      subst hi0
      exact ⟨[t1], by simp [cluster_similar_terms], by simp⟩
    · intro t ht
      cases ht
      rfl
    · intro h2
      simp at h2
  | t1 :: t2 :: rest =>
    have hres : cluster_similar_terms (t1 :: t2 :: rest) fc fp =
        ⟨groupClusters (t1 :: t2 :: rest)
            (fp (determine_optimal_clusters (t1 :: t2 :: rest) fc)),
          fp (determine_optimal_clusters (t1 :: t2 :: rest) fc)⟩ := rfl
    set L := fp (determine_optimal_clusters (t1 :: t2 :: rest) fc) with hLdef
    have hkeys : (groupClusters (t1 :: t2 :: rest) L).map Prod.fst = firstOccs L := by
      simp only [groupClusters, List.map_map]
      exact (List.map_congr_left fun a _ => rfl).trans (List.map_id _)
    refine ⟨hfp1, ?_, ?_, ?_, by simp, ?_, ?_⟩
    · rw [hres]
      rw [hkeys]
      exact firstOccs_nodup L
    · intro i hi
      rw [hres]
      have hiL : i < L.length := by rw [hfp1]; exact hi
      have hgd : L.getD i 0 = L.get ⟨i, hiL⟩ := by
        rw [List.getD_eq_getElem?_getD, List.getElem?_eq_getElem hiL]
        simp
      refine ⟨clusterOf (t1 :: t2 :: rest) L (L.get ⟨i, hiL⟩), ?_, ?_⟩
      · rw [hgd]
        refine List.mem_map.mpr ⟨L.get ⟨i, hiL⟩, ?_, rfl⟩
        exact (mem_firstOccs L).mpr (L.get_mem _ _)
      · have hz : i < ((t1 :: t2 :: rest).zip L).length := by
          rw [List.length_zip, hfp1]
          exact lt_min hi hi
        refine List.mem_map.mpr
          ⟨((t1 :: t2 :: rest).get ⟨i, hi⟩, L.get ⟨i, hiL⟩), ?_, rfl⟩
        refine List.mem_filter.mpr ⟨?_, by simp⟩
        have hget : ((t1 :: t2 :: rest).zip L).get ⟨i, hz⟩ =
            ((t1 :: t2 :: rest).get ⟨i, hi⟩, L.get ⟨i, hiL⟩) := by
          simp [List.get_eq_getElem, List.getElem_zip]
        rw [← hget]
        exact List.get_mem _ _ _
    · rw [hres]
      have hmap : (groupClusters (t1 :: t2 :: rest) L).map (fun p => p.2.length) =
          (firstOccs L).map
            (fun lab => (((t1 :: t2 :: rest).zip L).filter (fun p => p.2 == lab)).length) := by
        simp [groupClusters, List.map_map, Function.comp, clusterOf]
      rw [hmap, sum_filter_lengths _ _ (firstOccs_nodup L) ?_]
      · rw [List.length_zip, hfp1]
        exact min_self _
      · intro p hp
        exact (mem_firstOccs L).mpr (List.of_mem_zip hp).2
    · intro t ht
      simp at ht
    · intro h2
      have hrest : rest = [] := by
        simpa using h2
      subst hrest
      rw [hres]
      have hlen : (groupClusters [t1, t2] L).length = (firstOccs L).length := by
        simp [groupClusters]
      rw [hlen, firstOccs_length_eq_dedup, hLdef, hfp2]
      rfl

/-- C9 witness: terms `["a", "b"]` (code points), with `fit_predict`
returning labels `[0, 1]` for the requested 2 clusters: two labels, two
clusters. -/
theorem C9_witness :
    (cluster_similar_terms [[97], [98]] [] (fun _ => [0, 1])).cluster_labels.length = 2 ∧
    (cluster_similar_terms [[97], [98]] [] (fun _ => [0, 1])).clusters.length = 2 := by
  have h := C9_cluster_partition [[97], [98]] [] (fun _ => [0, 1]) (by decide) (by decide)
  exact ⟨h.1, h.2.2.2.2.2.2 rfl⟩

/-- Auxiliary: the Levenshtein distance is symmetric. -/
theorem lev_symm (a b : PyStr) : lev a b = lev b a := by
  induction a, b using lev.induct with
  | case1 ys =>
    cases ys with
    | nil => rfl
    | cons y ys => simp [lev]
  | case2 x xs => simp [lev]
  | case3 x xs y ys ih1 ih2 ih3 =>
    rw [lev, lev, ih1, ih2, ih3]
    have hxy : (if x = y then 0 else 1) = (if y = x then 0 else 1) := by
      by_cases h : x = y
      · simp [h]
      · have h2 : ¬y = x := fun hyx => h hyx.symm
        simp [h, h2]
    rw [hxy]
    omega

/-- Auxiliary: a string is at distance zero from itself. -/
theorem lev_self (a : PyStr) : lev a a = 0 := by
  induction a with
  | nil => simp [lev]
  | cons x xs ih => simp [lev, ih]

/-- Auxiliary: the Levenshtein distance never exceeds the longer length. -/
theorem lev_le_max (a b : PyStr) : lev a b ≤ max a.length b.length := by
  induction a, b using lev.induct with
  | case1 ys => simp [lev]
  | case2 x xs => simp [lev]
  | case3 x xs y ys ih1 ih2 ih3 =>
    rw [lev]
    simp only [List.length_cons]
    have h1 : lev xs ys + (if x = y then 0 else 1) ≤ max xs.length ys.length + 1 := by
      split_ifs <;> omega
    omega

/-- Auxiliary: `str.lower` does not change whether a character is
whitespace. -/
theorem isWS_lowerChar (c : ℕ) : isWS (lowerChar c) = isWS c := by
  unfold lowerChar isWS
  split_ifs with h
  · rw [decide_eq_decide]
    omega
  · rfl

/-- Auxiliary: lowering preserves length. -/
theorem pyLower_length (s : PyStr) : (pyLower s).length = s.length :=
  List.length_map s lowerChar

/-- Auxiliary: a whitespace-token split is nonempty iff some character is
not whitespace. -/
theorem splitWS_ne_nil (s : PyStr) (h : ∃ c ∈ s, ¬isWS c) : splitWS s ≠ [] := by
  induction s with
  | nil => simp at h
  | cons c rest ih =>
    rw [splitWS]
    by_cases hc : isWS c
    · rw [if_pos hc]
      apply ih
      rcases h with ⟨d, hd, hdw⟩
      rcases List.mem_cons.mp hd with rfl | hd2
      · exact absurd hc hdw
      · exact ⟨d, hd2, hdw⟩
    · rw [if_neg hc]
      simp

/-- Auxiliary: Jaccard similarity is symmetric. -/
theorem jaccard_symm (t1 t2 : PyStr) :
    jaccard_similarity t1 t2 = jaccard_similarity t2 t1 := by
  simp only [jaccard_similarity]
  rw [Finset.union_comm, Finset.inter_comm]

/-- Auxiliary: Jaccard similarity lies in `[0, 1]`. -/
theorem jaccard_range (t1 t2 : PyStr) :
    0 ≤ jaccard_similarity t1 t2 ∧ jaccard_similarity t1 t2 ≤ 1 := by
  simp only [jaccard_similarity]
  set s1 := (splitWS (pyLower t1)).toFinset
  set s2 := (splitWS (pyLower t2)).toFinset
  split_ifs with h
  · have hsub : (s1 ∩ s2).card ≤ (s1 ∪ s2).card :=
      Finset.card_le_card (le_trans Finset.inter_subset_left Finset.subset_union_left)
    constructor
    · positivity
    · rw [div_le_one (by exact_mod_cast h)]
      exact_mod_cast hsub
  · norm_num

/-- Auxiliary: Jaccard similarity of a term containing a non-whitespace
character with itself is exactly 1. -/
theorem jaccard_self (w : PyStr) (h : ∃ c ∈ w, ¬isWS c) :
    jaccard_similarity w w = 1 := by
  have h2 : ∃ c ∈ pyLower w, ¬isWS c := by
    rcases h with ⟨c, hc, hcw⟩
    exact ⟨lowerChar c, List.mem_map_of_mem lowerChar hc, by rw [isWS_lowerChar]; exact hcw⟩
  have hne := splitWS_ne_nil (pyLower w) h2
  rcases List.exists_mem_of_ne_nil _ hne with ⟨x, hx⟩
  have hcard : 0 < (splitWS (pyLower w)).toFinset.card :=
    Finset.card_pos.mpr ⟨x, List.mem_toFinset.mpr hx⟩
  simp only [jaccard_similarity]
  rw [Finset.union_self, Finset.inter_self, if_pos hcard]
  rw [div_self (ne_of_gt (by exact_mod_cast hcard))]

/-- Auxiliary: Levenshtein similarity is symmetric. -/
theorem levenshtein_sim_symm (t1 t2 : PyStr) :
    levenshtein_similarity t1 t2 = levenshtein_similarity t2 t1 := by
  simp only [levenshtein_similarity]
  rw [lev_symm, Nat.max_comm]

/-- Auxiliary: Levenshtein similarity lies in `[0, 1]`. -/
theorem levenshtein_sim_range (t1 t2 : PyStr) :
    0 ≤ levenshtein_similarity t1 t2 ∧ levenshtein_similarity t1 t2 ≤ 1 := by
  simp only [levenshtein_similarity]
  split_ifs with h
  · have hle : lev (pyLower t1) (pyLower t2) ≤ max t1.length t2.length := by
      have := lev_le_max (pyLower t1) (pyLower t2)
      rwa [pyLower_length, pyLower_length] at this
    constructor
    · rw [sub_nonneg, div_le_one (by exact_mod_cast h)]
      exact_mod_cast hle
    · exact sub_le_self 1 (div_nonneg (by positivity) (by positivity))
  · norm_num

/-- Auxiliary: Levenshtein similarity of a nonempty term with itself is
exactly 1. -/
theorem levenshtein_sim_self (w : PyStr) (h : w ≠ []) :
    levenshtein_similarity w w = 1 := by
  simp only [levenshtein_similarity]
  have hpos : 0 < max w.length w.length := by
    simp [List.length_pos]
    exact h
  rw [if_pos hpos, lev_self]
  simp

/-- Auxiliary: dropping a whitespace prefix does not change the number of
non-whitespace characters. -/
theorem countP_dropWhile_ws (l : PyStr) :
    (l.dropWhile isWS).countP (fun c => !isWS c) = l.countP (fun c => !isWS c) := by
  conv_rhs => rw [← List.takeWhile_append_dropWhile isWS l]
  rw [List.countP_append]
  have hz : (l.takeWhile isWS).countP (fun c => !isWS c) = 0 := by
    rw [List.countP_eq_zero]
    intro a ha
    simp [List.mem_takeWhile_imp ha]
  omega

/-- Auxiliary: whitespace collapsing does not change the number of
non-whitespace characters. -/
theorem countP_collapseWS (s : PyStr) :
    (collapseWS s).countP (fun c => !isWS c) = s.countP (fun c => !isWS c) := by
  induction s using collapseWS.induct with
  | case1 => simp [collapseWS]
  | case2 c => simp [collapseWS]
  | case3 c d rest hc hd ih =>
    rw [collapseWS, if_pos hc, if_pos hd]
    rw [List.countP_cons, List.countP_cons, ih, countP_dropWhile_ws]
    have h32 : isWS 32 = true := by decide
    simp [h32, hc]
  | case4 c d rest hc hd ih =>
    rw [collapseWS, if_pos hc, if_neg hd]
    rw [List.countP_cons, List.countP_cons, ih]
  | case5 c d rest hc ih =>
    rw [collapseWS, if_neg hc]
    rw [List.countP_cons, List.countP_cons, ih]

/-- Auxiliary: whitespace collapsing keeps at least one whitespace
character when the input had one. -/
theorem collapseWS_keeps_ws (s : PyStr) (h : ∃ c ∈ s, isWS c) :
    ∃ c ∈ collapseWS s, isWS c := by
  induction s using collapseWS.induct with
  | case1 => simpa [collapseWS] using h
  | case2 c => simpa [collapseWS] using h
  | case3 c d rest hc hd ih =>
    rw [collapseWS, if_pos hc, if_pos hd]
    exact ⟨32, by simp, by simp [isWS]⟩
  | case4 c d rest hc hd ih =>
    rw [collapseWS, if_pos hc, if_neg hd]
    exact ⟨c, by simp, hc⟩
  | case5 c d rest hc ih =>
    rw [collapseWS, if_neg hc]
    have h2 : ∃ x ∈ d :: rest, isWS x := by
      rcases h with ⟨x, hx, hxw⟩
      rcases List.mem_cons.mp hx with rfl | hx2
      · exact absurd hxw (by simpa using hc)
      · exact ⟨x, hx2, hxw⟩
    rcases ih h2 with ⟨x, hx, hxw⟩
    exact ⟨x, by simp [hx], hxw⟩

/-- Auxiliary: whitespace collapsing is the identity on inputs with no
whitespace at all. -/
theorem collapseWS_of_no_ws (s : PyStr) (h : ∀ c ∈ s, ¬isWS c) :
    collapseWS s = s := by
  induction s using collapseWS.induct with
  | case1 => simp [collapseWS]
  | case2 c => simp [collapseWS]
  | case3 c d rest hc hd ih =>
    exact absurd hc (h c (by simp))
  | case4 c d rest hc hd ih =>
    exact absurd hc (h c (by simp))
  | case5 c d rest hc ih =>
    rw [collapseWS, if_neg hc]
    rw [ih (fun x hx => h x (by simp [hx]))]

/-- Auxiliary: with two documents, a document frequency never exceeds 2. -/
theorem df_le_two (t1 t2 g : PyStr) : df t1 t2 g ≤ 2 := by
  unfold df
  split_ifs <;> omega

/-- Auxiliary: the smoothed IDF weight is at least 1 while the document
frequency is at most the corpus size. -/
theorem idf_ge_one (d : ℕ) (hd : d ≤ 2) : 1 ≤ idf d := by
  unfold idf
  have hd2 : (d : ℝ) ≤ 2 := by exact_mod_cast hd
  have h1 : (1 : ℝ) ≤ (1 + 2) / (1 + (d : ℝ)) := by
    rw [le_div_iff (by positivity)]
    linarith
  have := Real.log_nonneg h1
  linarith

/-- Auxiliary: a feature present in both documents has IDF exactly 1. -/
theorem idf_two : idf 2 = 1 := by
  unfold idf
  norm_num

/-- Auxiliary: TF-IDF weights are non-negative. -/
theorem weight_nonneg (t1 t2 t g : PyStr) : 0 ≤ weight t1 t2 t g :=
  mul_nonneg (Nat.cast_nonneg _)
    (le_trans zero_le_one (idf_ge_one _ (df_le_two t1 t2 g)))

/-- Auxiliary: the dot product of the two TF-IDF rows is non-negative. -/
theorem dotProd_nonneg (t1 t2 : PyStr) : 0 ≤ dotProd t1 t2 :=
  Finset.sum_nonneg fun g _ =>
    mul_nonneg (weight_nonneg t1 t2 t1 g) (weight_nonneg t1 t2 t2 g)

/-- Auxiliary: row norms are non-negative. -/
theorem rowNorm_nonneg (t1 t2 t : PyStr) : 0 ≤ rowNorm t1 t2 t :=
  Real.sqrt_nonneg _

/-- Auxiliary Cauchy–Schwarz bound: the dot product of the two rows is at
most the product of their norms. -/
theorem dotProd_le_norms (t1 t2 : PyStr) :
    dotProd t1 t2 ≤ rowNorm t1 t2 t1 * rowNorm t1 t2 t2 := by
  have hcs := Finset.sum_mul_sq_le_sq_mul_sq (vocab t1 t2)
    (weight t1 t2 t1) (weight t1 t2 t2)
  have hD := dotProd_nonneg t1 t2
  unfold dotProd rowNorm
  unfold dotProd at hD
  calc ∑ g ∈ vocab t1 t2, weight t1 t2 t1 g * weight t1 t2 t2 g
      = Real.sqrt ((∑ g ∈ vocab t1 t2, weight t1 t2 t1 g * weight t1 t2 t2 g) ^ 2) :=
        (Real.sqrt_sq hD).symm
    _ ≤ Real.sqrt ((∑ g ∈ vocab t1 t2, weight t1 t2 t1 g ^ 2) *
          ∑ g ∈ vocab t1 t2, weight t1 t2 t2 g ^ 2) := Real.sqrt_le_sqrt hcs
    _ = Real.sqrt (∑ g ∈ vocab t1 t2, weight t1 t2 t1 g ^ 2) *
          Real.sqrt (∑ g ∈ vocab t1 t2, weight t1 t2 t2 g ^ 2) :=
        Real.sqrt_mul (Finset.sum_nonneg fun g _ => sq_nonneg _) _

/-- Auxiliary: a zero row norm means every weight of that row vanishes on
the vocabulary. -/
theorem rowNorm_eq_zero_weight (t1 t2 t : PyStr) (h : rowNorm t1 t2 t = 0) :
    ∀ g ∈ vocab t1 t2, weight t1 t2 t g = 0 := by
  unfold rowNorm at h
  have hnn : 0 ≤ ∑ g ∈ vocab t1 t2, weight t1 t2 t g ^ 2 :=
    Finset.sum_nonneg fun g _ => sq_nonneg _
  have hsum : ∑ g ∈ vocab t1 t2, weight t1 t2 t g ^ 2 = 0 :=
    (Real.sqrt_eq_zero hnn).mp h
  intro g hg
  have := (Finset.sum_eq_zero_iff_of_nonneg (fun i _ => sq_nonneg _)).mp hsum g hg
  exact sq_eq_zero_iff.mp this

/-- Auxiliary: Python's `round(1.0, 10)` is exactly 1. -/
theorem pyRound10_one : pyRound10 1 = 1 := by
  unfold pyRound10 roundHalfEven
  have h1 : (1 : ℝ) * 10 ^ 10 = ((10 ^ 10 : ℤ) : ℝ) := by push_cast; ring
  rw [h1, Int.floor_intCast, sub_self, if_pos (by norm_num)]
  push_cast
  norm_num

/-- Auxiliary: Python's `round(x, 10)` maps `[0, 1]` into `[0, 1]`. -/
theorem pyRound10_bounds (x : ℝ) (h0 : 0 ≤ x) (h1 : x ≤ 1) :
    0 ≤ pyRound10 x ∧ pyRound10 x ≤ 1 := by
  unfold pyRound10 roundHalfEven
  set y := x * 10 ^ 10 with hy
  have hy0 : 0 ≤ y := by positivity
  have hyB : y ≤ 10 ^ 10 := by rw [hy]; nlinarith
  have hf0 : (0 : ℤ) ≤ ⌊y⌋ := Int.floor_nonneg.mpr hy0
  have hfB : ⌊y⌋ ≤ 10 ^ 10 := by
    have h2 : ⌊y⌋ ≤ ⌊(10 : ℝ) ^ 10⌋ := Int.floor_le_floor hyB
    have he : ((10 : ℝ)) ^ 10 = ((10 ^ 10 : ℤ) : ℝ) := by push_cast; ring
    rw [he, Int.floor_intCast] at h2
    exact h2
  constructor
  · split_ifs
    · exact div_nonneg (by exact_mod_cast hf0) (by positivity)
    · exact div_nonneg (by exact_mod_cast (by omega : (0 : ℤ) ≤ ⌊y⌋ + 1)) (by positivity)
    · exact div_nonneg (by exact_mod_cast hf0) (by positivity)
    · exact div_nonneg (by exact_mod_cast (by omega : (0 : ℤ) ≤ ⌊y⌋ + 1)) (by positivity)
  · by_cases he : ⌊y⌋ = 10 ^ 10
    · have hcast : ((⌊y⌋ : ℤ) : ℝ) = (10 : ℝ) ^ 10 := by rw [he]; push_cast; ring
      have hfrac : y - ((⌊y⌋ : ℤ) : ℝ) < 1 / 2 := by
        have hfl : ((⌊y⌋ : ℤ) : ℝ) ≤ y := Int.floor_le y
        rw [hcast]
        linarith
      rw [if_pos hfrac, div_le_one (by positivity), hcast]
    · have hlt : ⌊y⌋ + 1 ≤ 10 ^ 10 := by omega
      split_ifs
      · rw [div_le_one (by positivity)]
        exact_mod_cast hfB
      · rw [div_le_one (by positivity)]
        exact_mod_cast hlt
      · rw [div_le_one (by positivity)]
        exact_mod_cast hfB
      · rw [div_le_one (by positivity)]
        exact_mod_cast hlt

/-- Auxiliary: document frequency is symmetric in the corpus pair. -/
theorem df_symm (t1 t2 g : PyStr) : df t1 t2 g = df t2 t1 g := by
  unfold df
  omega

/-- Auxiliary: the fitted vocabulary is symmetric in the corpus pair. -/
theorem vocab_symm (t1 t2 : PyStr) : vocab t1 t2 = vocab t2 t1 :=
  Finset.union_comm _ _

/-- Auxiliary: TF-IDF weights are symmetric in the corpus pair. -/
theorem weight_symm (t1 t2 t g : PyStr) : weight t1 t2 t g = weight t2 t1 t g := by
  unfold weight
  rw [df_symm]

/-- Auxiliary: the TF-IDF cosine similarity is symmetric. -/
theorem cosine_symm (t1 t2 : PyStr) :
    cosine_similarity t1 t2 = cosine_similarity t2 t1 := by
  have hv := vocab_symm t1 t2
  have hdot : dotProd t1 t2 = dotProd t2 t1 := by
    unfold dotProd
    rw [hv]
    refine Finset.sum_congr rfl fun g _ => ?_
    rw [weight_symm, weight_symm t1 t2 t2, mul_comm]
  have hn1 : rowNorm t1 t2 t1 = rowNorm t2 t1 t1 := by
    unfold rowNorm
    rw [hv]
    congr 1
    exact Finset.sum_congr rfl fun g _ => by rw [weight_symm]
  have hn2 : rowNorm t1 t2 t2 = rowNorm t2 t1 t2 := by
    unfold rowNorm
    rw [hv]
    congr 1
    exact Finset.sum_congr rfl fun g _ => by rw [weight_symm]
  simp only [cosine_similarity]
  rw [hv, hdot, hn1, hn2, mul_comm]

/-- Auxiliary: the TF-IDF cosine similarity lies in `[0, 1]`. -/
theorem cosine_range (t1 t2 : PyStr) :
    0 ≤ cosine_similarity t1 t2 ∧ cosine_similarity t1 t2 ≤ 1 := by
  simp only [cosine_similarity]
  by_cases hv : vocab t1 t2 = ∅
  · rw [if_pos hv]
    norm_num
  · rw [if_neg hv]
    have hD0 : 0 ≤ dotProd t1 t2 := dotProd_nonneg t1 t2
    have harg : 0 ≤ dotProd t1 t2 /
          ((if rowNorm t1 t2 t1 = 0 then 1 else rowNorm t1 t2 t1) *
            (if rowNorm t1 t2 t2 = 0 then 1 else rowNorm t1 t2 t2)) ∧
        dotProd t1 t2 /
          ((if rowNorm t1 t2 t1 = 0 then 1 else rowNorm t1 t2 t1) *
            (if rowNorm t1 t2 t2 = 0 then 1 else rowNorm t1 t2 t2)) ≤ 1 := by
      by_cases h1 : rowNorm t1 t2 t1 = 0
      · have hD : dotProd t1 t2 = 0 := by
          unfold dotProd
          refine Finset.sum_eq_zero fun g hg => ?_
          rw [rowNorm_eq_zero_weight t1 t2 t1 h1 g hg, zero_mul]
        rw [hD, zero_div]
        norm_num
      · by_cases h2 : rowNorm t1 t2 t2 = 0
        · have hD : dotProd t1 t2 = 0 := by
            unfold dotProd
            refine Finset.sum_eq_zero fun g hg => ?_
            rw [rowNorm_eq_zero_weight t1 t2 t2 h2 g hg, mul_zero]
          rw [hD, zero_div]
          norm_num
        · have hn1p : 0 < rowNorm t1 t2 t1 :=
            lt_of_le_of_ne (rowNorm_nonneg t1 t2 t1) (Ne.symm h1)
          have hn2p : 0 < rowNorm t1 t2 t2 :=
            lt_of_le_of_ne (rowNorm_nonneg t1 t2 t2) (Ne.symm h2)
          rw [if_neg h1, if_neg h2]
          constructor
          · exact div_nonneg hD0 (mul_nonneg hn1p.le hn2p.le)
          · rw [div_le_one (mul_pos hn1p hn2p)]
            exact dotProd_le_norms t1 t2
    exact pyRound10_bounds _ harg.1 harg.2

/-- Auxiliary: the TF-IDF cosine similarity of a term with itself is
exactly 1 as soon as its processed document has at least one bigram. -/
theorem cosine_self (w : PyStr) (h : 2 ≤ (procDoc w).length) :
    cosine_similarity w w = 1 := by
  have hlen : 0 < (charFeatures (procDoc w)).length := by
    simp [charFeatures, ngrams, List.length_append, List.length_map, List.length_range]
    omega
  have hfeat : charFeatures (procDoc w) ≠ [] := by
    intro hnil
    rw [hnil] at hlen
    simp at hlen
  obtain ⟨g0, hg0⟩ := List.exists_mem_of_ne_nil _ hfeat
  have hg0v : g0 ∈ vocab w w :=
    Finset.mem_union.mpr (Or.inl (List.mem_toFinset.mpr hg0))
  have htfmem : ∀ g ∈ vocab w w, 0 < tf w g := by
    intro g hg
    have hgmem : g ∈ charFeatures (procDoc w) := by
      rcases Finset.mem_union.mp hg with h1 | h1 <;> exact List.mem_toFinset.mp h1
    unfold tf
    exact List.count_pos_iff.mpr hgmem
  have hw : ∀ g ∈ vocab w w, weight w w w g = (tf w g : ℝ) := by
    intro g hg
    unfold weight df
    rw [if_pos (htfmem g hg)]
    norm_num [idf_two]
  have hSpos : 0 < ∑ g ∈ vocab w w, weight w w w g ^ 2 := by
    refine Finset.sum_pos' (fun g _ => sq_nonneg _) ⟨g0, hg0v, ?_⟩
    rw [hw g0 hg0v]
    have htf0 : (0 : ℝ) < (tf w g0 : ℝ) := by exact_mod_cast htfmem g0 hg0v
    exact pow_pos htf0 2
  have hvne : ¬vocab w w = ∅ := by
    intro hempty
    rw [hempty] at hg0v
    simp at hg0v
  simp only [cosine_similarity]
  rw [if_neg hvne]
  have hdotS : dotProd w w = ∑ g ∈ vocab w w, weight w w w g ^ 2 := by
    unfold dotProd
    refine Finset.sum_congr rfl fun g _ => ?_
    ring
  have hns : rowNorm w w w = Real.sqrt (∑ g ∈ vocab w w, weight w w w g ^ 2) := rfl
  have hnpos : 0 < rowNorm w w w := by
    rw [hns]
    exact Real.sqrt_pos.mpr hSpos
  rw [if_neg (ne_of_gt hnpos), hdotS, hns, Real.mul_self_sqrt hSpos.le,
    div_self (ne_of_gt hSpos)]
  exact pyRound10_one

/-- Auxiliary: a term with at least two characters, one of which is not
whitespace, yields a processed vectorizer document of length at least 2
(hence at least one bigram). -/
theorem procDoc_length_ge_two (w : PyStr) (h2 : 2 ≤ w.length)
    (hnw : ∃ c ∈ w, ¬isWS c) : 2 ≤ (procDoc w).length := by
  unfold procDoc
  set s := pyLower (pyLower w) with hs
  have hslen : s.length = w.length := by rw [hs, pyLower_length, pyLower_length]
  have hsnw : ∃ c ∈ s, ¬isWS c := by
    rcases hnw with ⟨c, hc, hcw⟩
    refine ⟨lowerChar (lowerChar c), ?_, ?_⟩
    · rw [hs]
      exact List.mem_map_of_mem _ (List.mem_map_of_mem _ hc)
    · rw [isWS_lowerChar, isWS_lowerChar]
      exact hcw
  by_cases hws : ∃ c ∈ s, isWS c
  · have hfn : (fun a => decide ¬(fun c => isWS c) a = true) = (fun c => !isWS c) := by
      funext a
      cases h : isWS a <;> simp [h]
    have hnwc : 0 < (collapseWS s).countP (fun c => !isWS c) := by
      rw [countP_collapseWS]
      rcases hsnw with ⟨c, hc, hcw⟩
      exact List.countP_pos.mpr ⟨c, hc, by simp [hcw]⟩
    have hwc : 0 < (collapseWS s).countP (fun c => isWS c) := by
      rcases collapseWS_keeps_ws s hws with ⟨c, hc, hcw⟩
      exact List.countP_pos.mpr ⟨c, hc, hcw⟩
    have hsplit := List.length_eq_countP_add_countP (fun c => isWS c) (collapseWS s)
    rw [hfn] at hsplit
    omega
  · push_neg at hws
    rw [collapseWS_of_no_ws s hws]
    omega

/-- Auxiliary: `calculate_string_similarity` is symmetric for every
configured method. -/
theorem sim_symm (method : String) (t1 t2 : PyStr) :
    calculate_string_similarity method t1 t2 =
    calculate_string_similarity method t2 t1 := by
  unfold calculate_string_similarity
  by_cases hg : t1 = [] ∨ t2 = []
  · have hgs : t2 = [] ∨ t1 = [] := Or.symm hg
    rw [if_pos hg, if_pos hgs]
  · have hg2 : ¬(t2 = [] ∨ t1 = []) := fun h => hg (Or.symm h)
    rw [if_neg hg, if_neg hg2]
    split_ifs
    · exact_mod_cast congrArg Rat.cast (jaccard_symm t1 t2)
    · exact cosine_symm t1 t2
    · exact_mod_cast congrArg Rat.cast (levenshtein_sim_symm t1 t2)
    · exact cosine_symm t1 t2

/-- Auxiliary: `calculate_string_similarity` lies in `[0, 1]` for every
configured method. -/
theorem sim_range (method : String) (t1 t2 : PyStr) :
    0 ≤ calculate_string_similarity method t1 t2 ∧
    calculate_string_similarity method t1 t2 ≤ 1 := by
  unfold calculate_string_similarity
  split_ifs
  · norm_num
  · constructor
    · exact_mod_cast (jaccard_range t1 t2).1
    · exact_mod_cast (jaccard_range t1 t2).2
  · exact cosine_range t1 t2
  · constructor
    · exact_mod_cast (levenshtein_sim_range t1 t2).1
    · exact_mod_cast (levenshtein_sim_range t1 t2).2
  · exact cosine_range t1 t2

/-- Auxiliary: self-similarity is exactly 1 under each method for terms
with at least two characters, one non-whitespace. -/
theorem sim_self (method : String) (w : PyStr) (h2 : 2 ≤ w.length)
    (hnw : ∃ c ∈ w, ¬isWS c)
    (hm : method = "jaccard" ∨ method = "cosine" ∨ method = "levenshtein") :
    calculate_string_similarity method w w = 1 := by
  have hwne : w ≠ [] := by
    intro h
    rw [h] at h2
    simp at h2
  have hne : ¬(w = [] ∨ w = []) := by
    intro hh
    rcases hh with h | h <;> exact hwne h
  unfold calculate_string_similarity
  rw [if_neg hne]
  rcases hm with hm | hm | hm <;> subst hm
  · rw [if_pos rfl]
    exact_mod_cast congrArg Rat.cast (jaccard_self w hnw)
  · rw [if_neg (by decide), if_pos rfl]
    exact cosine_self w (procDoc_length_ge_two w h2 hnw)
  · rw [if_neg (by decide), if_neg (by decide), if_pos rfl]
    exact_mod_cast congrArg Rat.cast (levenshtein_sim_self w hwne)

/-- C8 as amended: for every term list and every configured similarity
method the similarity matrix is symmetric, has every diagonal entry
exactly `1.0` and every entry in `[0, 1]`; and
`calculate_string_similarity(w, w)` equals `1.0` exactly for every term
`w` that has at least two characters, at least one of them
non-whitespace, under each of the three methods (the original claim's
unrestricted `similarity(w, w) = 1.0` fails on degenerate terms, see the
counterexample). -/
theorem C8_similarity_matrix_properties (method : String) (terms : List PyStr) :
    (∀ i j, calculate_similarity_matrix method terms i j =
      calculate_similarity_matrix method terms j i) ∧
    (∀ i, calculate_similarity_matrix method terms i i = 1) ∧
    (∀ i j, 0 ≤ calculate_similarity_matrix method terms i j ∧
      calculate_similarity_matrix method terms i j ≤ 1) ∧
    (∀ w : PyStr, 2 ≤ w.length → (∃ c ∈ w, ¬isWS c) →
      (method = "jaccard" ∨ method = "cosine" ∨ method = "levenshtein") →
      calculate_string_similarity method w w = 1) := by
  refine ⟨?_, ?_, ?_, fun w h2 hnw hm => sim_self method w h2 hnw hm⟩
  · intro i j
    unfold calculate_similarity_matrix
    by_cases hij : i = j
    · rw [if_pos hij, if_pos hij.symm]
    · rw [if_neg hij, if_neg (fun h => hij h.symm)]
      exact sim_symm method _ _
  · intro i
    unfold calculate_similarity_matrix
    rw [if_pos rfl]
  · intro i j
    unfold calculate_similarity_matrix
    by_cases hij : i = j
    · rw [if_pos hij]
      norm_num
    · rw [if_neg hij]
      exact sim_range method _ _

/-- C8 counterexample: `calculate_string_similarity(w, w)` is `0.0`, not
`1.0`, for degenerate terms — the empty string (the guard fires before
any method runs, shown under the levenshtein method whose own formula
would give 1), a single character under the cosine method (no bigram, so
the vectorizer raises on an empty vocabulary and the `except` returns
`0.0`), and a whitespace-only term under the jaccard method (empty token
set). -/
theorem C8_self_similarity_counterexample :
    calculate_string_similarity "levenshtein" [] [] = 0 ∧
    calculate_string_similarity "cosine" [97] [97] = 0 ∧
    calculate_string_similarity "jaccard" [32, 32] [32, 32] = 0 ∧
    (0 : ℝ) ≠ 1 := by
  refine ⟨?_, ?_, ?_, by norm_num⟩
  · unfold calculate_string_similarity
    rw [if_pos (Or.inl rfl)]
  · unfold calculate_string_similarity
    rw [if_neg (by simp), if_neg (by decide), if_pos rfl]
    simp only [cosine_similarity]
    have hproc : procDoc [97] = [97] := by
      simp [procDoc, pyLower, lowerChar, collapseWS]
    have hvoc : vocab [97] [97] = ∅ := by
      simp [vocab, hproc, charFeatures, ngrams]
    rw [if_pos hvoc]
  · unfold calculate_string_similarity
    rw [if_neg (by simp), if_pos rfl]
    have hsplit : splitWS (pyLower [32, 32]) = [] := by
      have h32 : isWS 32 = true := by decide
      simp [pyLower, lowerChar, splitWS, h32]
    simp only [jaccard_similarity, hsplit]
    norm_num

/-- C8 witness: `"leaf"` (code points `[108, 101, 97, 102]`) has
self-similarity exactly 1 under each of the three methods, by the
amended theorem. -/
theorem C8_witness :
    calculate_string_similarity "cosine" [108, 101, 97, 102] [108, 101, 97, 102] = 1 ∧
    calculate_string_similarity "jaccard" [108, 101, 97, 102] [108, 101, 97, 102] = 1 ∧
    calculate_string_similarity "levenshtein" [108, 101, 97, 102] [108, 101, 97, 102] = 1 := by
  refine ⟨?_, ?_, ?_⟩
  · exact (C8_similarity_matrix_properties "cosine" []).2.2.2 [108, 101, 97, 102]
      (by decide) ⟨108, by decide, by decide⟩ (Or.inr (Or.inl rfl))
  · exact (C8_similarity_matrix_properties "jaccard" []).2.2.2 [108, 101, 97, 102]
      (by decide) ⟨108, by decide, by decide⟩ (Or.inl rfl)
  · exact (C8_similarity_matrix_properties "levenshtein" []).2.2.2 [108, 101, 97, 102]
      (by decide) ⟨108, by decide, by decide⟩ (Or.inr (Or.inr rfl))
